import Mathlib

/-!
# Verification of the shale persistent-object layer

A shallow embedding of `src/firewood/src/shale/mod.rs`: the `Storable`
serialization contract, `StoredView`, the dirty-tracking object handle `Obj`,
the cache-aware reference release protocol (`ObjRef`), and the bounded-LRU
object cache `ObjCache` with its checkout (`pinned`) table and dirty set.

Machine integers are modelled as `Nat` (no arithmetic in the claims overflows),
byte buffers as `List Nat`, the `HashMap`/`HashSet`/`LruCache` containers as
association lists (the LRU list is kept in recency order, front = most
recently used).  Fallible code returns `Except`; a Rust `unwrap`/`expect`
(process abort) is a distinguished `FlushOutcome.panicked` outcome.
-/

namespace Firewood

/-- Error kinds of `ShaleError` in `shale/mod.rs`, restricted to the variants
the verified operations can produce.  `serializeFailed` stands for a
`Storable::serialize` failure (any `ShaleError` raised by a record type's own
serializer). -/
inductive ShaleErr where
  | invalidObj (addr : Nat) (error : String)
  | io
  | immutableWrite
  | serializeFailed
  deriving DecidableEq, Repr

/-- `ObjWriteSizeError`: the oversize error returned by `Obj::modify` when the
mutated value no longer fits its length ceiling. -/
inductive ObjWriteSizeError where
  | mk
  deriving DecidableEq, Repr

/-- The `Storable` trait: every persisted record type computes its exact
serialized length and serializes to exactly that many bytes (the contract of
§3 of the layer's documentation: serialization fills a caller-provided buffer
of that exact length). -/
structure StorableImpl (T : Type) where
  serializedLen : T → Nat
  serializeBytes : T → List Nat
  serialize_length : ∀ v, (serializeBytes v).length = serializedLen v

/-- `StoredView<T>`: a decoded item, the offset it was read from, and the
length-limit ceiling.  The shared linear-store handle (`mem`) is externalized:
operations that touch the store take the store state explicitly. -/
structure StoredView (T : Type) where
  item : T
  offset : Nat
  lenLimit : Nat
  deriving DecidableEq, Repr

/-- `StoredView::serialized_len`: the would-be length, or `none` when it
exceeds the ceiling (`len > self.len_limit`). -/
def StoredView.serializedLenOpt {T : Type} (S : StorableImpl T) (v : StoredView T) :
    Option Nat :=
  let len := S.serializedLen v.item
  if len > v.lenLimit then none else some len

/-- `Obj<T>`: a stored view plus the optional dirty length marker (`None` when
clean, `Some len` after a successful mutation, where `len` is the serialized
length recorded at mutation time). -/
structure Obj (T : Type) where
  value : StoredView T
  dirty : Option Nat
  deriving DecidableEq, Repr

/-- `Obj::as_addr`: the handle's disk address.  `DiskAddress` is an optional
non-zero offset; we model it as the plain offset (`0` playing the null role),
which is exactly how `DiskAddress(NonZeroUsize::new(offset))` keys the cache
maps. -/
def Obj.asAddr {T : Type} (o : Obj T) : Nat :=
  o.value.offset

/-- `Obj::modify`: run the mutation closure against the private value, then
recompute the serialized length.  On success the dirty marker records the new
length; when the new length exceeds the ceiling the function returns the
oversize error *early*, leaving the dirty marker at whatever it was before
while the in-memory mutation stays applied. -/
def Obj.modify {T : Type} (S : StorableImpl T) (o : Obj T) (f : T → T) :
    Obj T × Option ObjWriteSizeError :=
  match StoredView.serializedLenOpt S { item := f o.value.item, offset := o.value.offset, lenLimit := o.value.lenLimit } with
  | some len =>
    ({ value := { item := f o.value.item, offset := o.value.offset, lenLimit := o.value.lenLimit }, dirty := some len }, none)
  | none =>
    ({ value := { item := f o.value.item, offset := o.value.offset, lenLimit := o.value.lenLimit }, dirty := o.dirty }, some ObjWriteSizeError.mk)

/-- In-place write of `change` into `data` starting at `offset` (the linear
store's `write`).  Bytes beyond the end of the store are dropped; all claims
are stated for in-bounds writes. -/
def writeBytes (data : List Nat) (offset : Nat) (change : List Nat) : List Nat :=
  data.take offset ++ change.take (data.length - offset) ++ data.drop (offset + change.length)

/-- Read `len` bytes starting at `offset` (a pinned view's contents). -/
def readRange (data : List Nat) (offset len : Nat) : List Nat :=
  (data.drop offset).take len

/-- The backing linear store: its bytes plus the two failure switches of the
store contract.

Modelled from the spec: the physical store implementations are external
collaborators (not under `src/`); per the store contract, `write` fails with
an immutability error on a read-only store and with an I/O error when the
medium rejects the write. -/
structure LinearStoreM where
  bytes : List Nat
  writeable : Bool
  writeOk : Bool
  deriving DecidableEq, Repr

/-- The store `write` contract (see `LinearStoreM`). -/
def LinearStoreM.write (s : LinearStoreM) (offset : Nat) (change : List Nat) :
    Except ShaleErr LinearStoreM :=
  if s.writeable then
    if s.writeOk then Except.ok { s with bytes := writeBytes s.bytes offset change }
    else Except.error ShaleErr.io
  else Except.error ShaleErr.immutableWrite

/-- Outcome of running code that may `unwrap`/`expect`: either a value, or a
process abort (`panicked`) carrying the error the abort reported.  A panic is
not an error return — the caller never receives it as a value. -/
inductive FlushOutcome (α : Type) where
  | ok (a : α)
  | panicked (e : ShaleErr)
  deriving DecidableEq, Repr

/-- `Obj::flush_dirty`: a no-op when clean; otherwise take the dirty length,
allocate a buffer of exactly that length, serialize into it (the source
`unwrap`s a serialization failure — modelled as a panic when the recorded
length does not match the value's serialized length), and `write` at the
handle's offset (the source `expect`s, i.e. panics on, a write failure).
`Drop for Obj` invokes exactly this function. -/
def Obj.flushDirty {T : Type} (S : StorableImpl T) (o : Obj T) (s : LinearStoreM) :
    FlushOutcome (Obj T × LinearStoreM) :=
  match o.dirty with
  | none => FlushOutcome.ok (o, s)
  | some len =>
    if S.serializedLen o.value.item = len then
      match s.write o.value.offset (S.serializeBytes o.value.item) with
      | Except.ok s' => FlushOutcome.ok ({ o with dirty := none }, s')
      | Except.error e => FlushOutcome.panicked e
    else FlushOutcome.panicked ShaleErr.serializeFailed

/-- Serialization into a caller-provided buffer of length `len` (zero-filled
by `vec![0; len]`): when `len` matches the byte count this is exactly the
serialized bytes. -/
def serializeIntoBuf (len : Nat) (bs : List Nat) : List Nat :=
  bs.take len ++ List.replicate (len - bs.length) 0

/-- `Obj::flush_dirty` specialized to the cache machine's store, where writes
are in-memory and always succeed (the machine models a writable store; the
failure path is covered by `Obj.flushDirty`). -/
def Obj.flushDirtyT {T : Type} (S : StorableImpl T) (o : Obj T) (bytes : List Nat) :
    Obj T × List Nat :=
  match o.dirty with
  | none => (o, bytes)
  | some len =>
    ({ o with dirty := none },
      writeBytes bytes o.value.offset (serializeIntoBuf len (S.serializeBytes o.value.item)))

/-- `StoredView::slice`: derive a child handle over a sub-range of a decoded
parent.  The child's offset is the parent's offset plus the sub-offset; a
parent with unflushed dirty state is rejected with the invalid-object error
(whose `addr` field carries the *sub*-offset, as in the source). -/
def StoredView.slice {T U : Type} (s : Obj T) (offset : Nat) (length : Nat) (item : U) :
    Except ShaleErr (Obj U) :=
  let addr' := s.value.offset + offset
  if s.dirty.isSome then
    Except.error (ShaleErr.invalidObj offset "dirty write")
  else
    Except.ok { value := { item := item, offset := addr', lenLimit := length }, dirty := none }

/-- A concrete `Storable` instance used for witnesses: a `Nat` whose
serialized form is that many copies of the byte `7`. -/
def natS : StorableImpl Nat where
  serializedLen := fun v => v
  serializeBytes := fun v => List.replicate v 7
  serialize_length := fun v => List.length_replicate v 7

example :
    (Obj.modify natS { value := { item := 3, offset := 1, lenLimit := 5 }, dirty := none }
      (fun _ => 2)).1.dirty = some 2 := by decide

example :
    (Obj.modify natS { value := { item := 3, offset := 1, lenLimit := 5 }, dirty := none }
      (fun _ => 9)).2 = some ObjWriteSizeError.mk := by decide

/-! ## Association-list maps

`HashMap`, `HashSet` and `lru::LruCache` are modelled as association lists;
the LRU list is kept in recency order (front = most recently used, evictions
take the back). -/

/-- Keys of an association list. -/
def keys {α : Type} (l : List (Nat × α)) : List Nat :=
  l.map Prod.fst

/-- First value stored under `k`. -/
def alookup {α : Type} (l : List (Nat × α)) (k : Nat) : Option α :=
  match l with
  | [] => none
  | (k', v) :: t => if k' = k then some v else alookup t k

/-- Remove every entry keyed `k` (a map holds at most one, so this is the
map's `remove`). -/
def aremove {α : Type} (l : List (Nat × α)) (k : Nat) : List (Nat × α) :=
  match l with
  | [] => []
  | (k', v) :: t => if k' = k then aremove t k else (k', v) :: aremove t k

/-- `HashMap::insert k v`: `v` becomes the value under `k`. -/
def ainsert {α : Type} (l : List (Nat × α)) (k : Nat) (v : α) : List (Nat × α) :=
  (k, v) :: aremove l k

/-- Replace the value of the first entry keyed `k`, keeping its position
(`lru::LruCache::peek_mut` mutates in place without touching recency). -/
def creplace {α : Type} (l : List (Nat × α)) (k : Nat) (v : α) : List (Nat × α) :=
  match l with
  | [] => []
  | (k', v') :: t => if k' = k then (k', v) :: t else (k', v') :: creplace t k v

/-- Remove and return the first entry keyed `k` (dropping one specific live
reference from the reference pool). -/
def refTake {α : Type} (l : List (Nat × α)) (k : Nat) : Option (α × List (Nat × α)) :=
  match l with
  | [] => none
  | (k', v) :: t =>
    if k' = k then some (v, t)
    else (refTake t k).map (fun p => (p.1, (k', v) :: p.2))

/-- `HashSet::insert`. -/
def sinsert (l : List Nat) (k : Nat) : List Nat :=
  if k ∈ l then l else k :: l

/-- Set the discard flag of the entry keyed `a` to `true`, leaving every other
entry alone (`if let Some(f) = pinned.get_mut(&ptr) { *f = true }`). -/
def setTrue (l : List (Nat × Bool)) (a : Nat) : List (Nat × Bool) :=
  l.map (fun p => (p.1, if p.1 = a then true else p.2))

/-! ## The object cache and the reference/release state machine -/

/-- `ObjCacheInner<T>`: the LRU map of resident handles, the per-address
checkout/discard flag table (`pinned`), and the dirty-address set.  `cap` is
the LRU capacity fixed at `ObjCache::new`. -/
structure ObjCacheInner (T : Type) where
  cap : Nat
  cached : List (Nat × Obj T)
  pinned : List (Nat × Bool)
  dirty : List Nat
  deriving DecidableEq, Repr

/-- The whole system the cache claims range over: the cache bookkeeping, the
pool of live cache-aware references (`ObjRef`s, keyed by their address), and
the linear store's bytes.  Callers wrap checked-out handles into `ObjRef`s
(the wrapping itself lives in the cache's caller, per the layer's control
flow), so a checkout appends to `refs` and a release consumes from it. -/
structure SysState (T : Type) where
  cache : ObjCacheInner T
  refs : List (Nat × Obj T)
  store : List Nat
  deriving DecidableEq, Repr

section Machine

variable {T : Type} (S : StorableImpl T)

/-- `lru::LruCache::put`: an existing key is updated in place and promoted to
the front (the cache drops — and hence flushes — the value it replaces); a new
key at capacity first evicts the least-recently-used entry, whose handle is
dropped and therefore flushed by ordinary `Obj` destruction. -/
def lruPut (cap : Nat) (cached : List (Nat × Obj T)) (a : Nat) (o : Obj T)
    (store : List Nat) : List (Nat × Obj T) × List Nat :=
  match alookup cached a with
  | some old =>
    let fl := Obj.flushDirtyT S old store
    ((a, o) :: aremove cached a, fl.2)
  | none =>
    if cap ≤ cached.length then
      match cached.getLast? with
      | some e =>
        let fl := Obj.flushDirtyT S e.2 store
        ((a, o) :: cached.dropLast, fl.2)
      | none => ((a, o) :: cached, store)
    else ((a, o) :: cached, store)

/-- `ObjCache::get`: pop the address from the LRU if resident; on a hit the
discard flag is set to `false` whether or not an entry was already present
(`entry(ptr).and_modify(|p| *p = false).or_insert(false)`) and the handle goes
out as a live reference.  A miss leaves the state unchanged. -/
def getOp (s : SysState T) (a : Nat) : SysState T :=
  match alookup s.cache.cached a with
  | none => s
  | some r =>
    { s with
      cache := { s.cache with
        cached := aremove s.cache.cached a,
        pinned := ainsert s.cache.pinned a false },
      refs := s.refs ++ [(a, r)] }

/-- `ObjCache::put`: record the freshly-constructed handle's address as
checked out with discard flag `false` (an unconditional `insert`) and hand the
handle out as a live reference. -/
def putOp (s : SysState T) (o : Obj T) : SysState T :=
  { s with
    cache := { s.cache with pinned := ainsert s.cache.pinned o.asAddr false },
    refs := s.refs ++ [(o.asAddr, o)] }

/-- `ObjCache::pop` (invalidation): flip the discard flag to `true` if the
address is checked out; remove it from the LRU if resident (the removed
handle's dirty marker is cleared before it is dropped, so nothing is written);
remove the address from the dirty set. -/
def popOp (s : SysState T) (a : Nat) : SysState T :=
  { s with
    cache := { s.cache with
      pinned := setTrue s.cache.pinned a,
      cached := aremove s.cache.cached a,
      dirty := s.cache.dirty.filter (fun x => x ≠ a) } }

/-- `ObjRef::write`: mutate through the handle via `Obj::modify`; only on
success is the address added to the cache's dirty set. -/
def writeOp (s : SysState T) (a : Nat) (f : T → T) : SysState T :=
  match alookup s.refs a with
  | none => s
  | some o =>
    let m := Obj.modify S o f
    match m.2 with
    | none =>
      { s with
        refs := creplace s.refs a m.1,
        cache := { s.cache with dirty := sinsert s.cache.dirty a } }
    | some _ => { s with refs := creplace s.refs a m.1 }

/-- `Drop for ObjRef` (the release protocol): remove the discard flag for the
reference's address; if it was `true`, clear the handle's dirty marker and
drop it (no write, no reinsertion); otherwise return the handle to the LRU
(possibly evicting, and thereby flushing, the least-recently-used entry). -/
def releaseOp (s : SysState T) (a : Nat) : SysState T :=
  match refTake s.refs a with
  | none => s
  | some (o, refs') =>
    match alookup s.cache.pinned a with
    | some true =>
      { s with
        refs := refs',
        cache := { s.cache with pinned := aremove s.cache.pinned a } }
    | _ =>
      let pr := lruPut S s.cache.cap s.cache.cached a o s.store
      { s with
        refs := refs',
        cache := { s.cache with pinned := aremove s.cache.pinned a, cached := pr.1 },
        store := pr.2 }

/-- `ObjRef::into_inner`: take the inner value out, `forget` the reference
(its `Drop` — the release protocol — never runs, so the `pinned` entry stays),
while the consumed `Obj` itself is dropped with its item replaced by the empty
leaf, flushing that replacement if the handle was dirty. -/
def intoInnerOp (e : T) (s : SysState T) (a : Nat) : SysState T :=
  match refTake s.refs a with
  | none => s
  | some (o, refs') =>
    let o' : Obj T := { value := { o.value with item := e }, dirty := o.dirty }
    let fl := Obj.flushDirtyT S o' s.store
    { s with refs := refs', store := fl.2 }

/-- One pass of the barrier flush body: flush the handle cached under `a` (if
resident) in place, threading the store. -/
def flushOne (acc : List (Nat × Obj T) × List Nat) (a : Nat) :
    List (Nat × Obj T) × List Nat :=
  match alookup acc.1 a with
  | some o =>
    let fl := Obj.flushDirtyT S o acc.2
    (creplace acc.1 a fl.1, fl.2)
  | none => acc

/-- `ObjCache::flush_dirty`: return `none` ("busy") as soon as any address is
checked out; otherwise take the dirty set, flush every address in it that is
still resident in the LRU, and return success. -/
def flushDirtyCache (s : SysState T) : Option (SysState T) :=
  if s.cache.pinned = [] then
    let pr := s.cache.dirty.foldl (flushOne S) (s.cache.cached, s.store)
    some { s with
      cache := { s.cache with cached := pr.1, dirty := [] },
      store := pr.2 }
  else none

/-- The operations the cache claims quantify over. -/
inductive Op (T : Type) where
  | get (a : Nat)
  | put (o : Obj T)
  | pop (a : Nat)
  | flush
  | write (a : Nat) (f : T → T)
  | release (a : Nat)
  | intoInner (a : Nat)

/-- One step of the system. A busy barrier flush leaves the state unchanged. -/
def step (e : T) (s : SysState T) (op : Op T) : SysState T :=
  match op with
  | Op.get a => getOp s a
  | Op.put o => putOp s o
  | Op.pop a => popOp s a
  | Op.flush =>
    match flushDirtyCache S s with
    | some s' => s'
    | none => s
  | Op.write a f => writeOp S s a f
  | Op.release a => releaseOp S s a
  | Op.intoInner a => intoInnerOp S e s a

/-- Run a sequence of operations. -/
def exec (e : T) (s : SysState T) (ops : List (Op T)) : SysState T :=
  ops.foldl (step S e) s

/-- A fresh cache over a store (`ObjCache::new`, which requires a non-zero
capacity). -/
def initState (cap : Nat) (store : List Nat) : SysState T :=
  { cache := { cap := cap, cached := [], pinned := [], dirty := [] },
    refs := [],
    store := store }

/-- The put discipline of the layer's own usage: `put` is the insertion path
after a `get` miss, so it is only invoked for an address that is neither
checked out nor resident.  All other operations are unrestricted. -/
def OkOp (s : SysState T) (op : Op T) : Bool :=
  match op with
  | Op.put o =>
    (alookup s.cache.pinned o.asAddr).isNone && (alookup s.cache.cached o.asAddr).isNone
  | _ => true

/-- A trace is disciplined when every step respects `OkOp` in the state it
runs from. -/
def OkTrace (e : T) : SysState T → List (Op T) → Bool
  | _, [] => true
  | s, op :: ops => OkOp s op && OkTrace e (step S e s op) ops

/-- States reachable from a fresh cache by a disciplined trace. -/
def DReach (e : T) (s : SysState T) : Prop :=
  ∃ cap store ops, 1 ≤ cap ∧ OkTrace S e (initState cap store) ops = true ∧
    exec S e (initState cap store) ops = s

end Machine

example :
    (exec natS 0 (initState 2 [0, 0, 0, 0])
      [Op.put { value := { item := 2, offset := 1, lenLimit := 5 }, dirty := none },
       Op.write 1 (fun _ => 3),
       Op.release 1]).cache.dirty = [1] := by decide

/-! ## Lemmas about the association-list maps -/

section MapLemmas

variable {α : Type}

@[simp] lemma keys_nil : keys ([] : List (Nat × α)) = [] := rfl

@[simp] lemma keys_cons (p : Nat × α) (l : List (Nat × α)) :
    keys (p :: l) = p.1 :: keys l := rfl

@[simp] lemma keys_append (l₁ l₂ : List (Nat × α)) :
    keys (l₁ ++ l₂) = keys l₁ ++ keys l₂ :=
  List.map_append _ _ _

lemma alookup_eq_none {l : List (Nat × α)} {k : Nat} :
    alookup l k = none ↔ k ∉ keys l := by
  induction l with
  | nil => simp [alookup]
  | cons p t ih =>
    obtain ⟨k', v⟩ := p
    by_cases h : k' = k
    · subst h
      simp [alookup]
    · simp only [alookup, if_neg h, keys_cons, List.mem_cons, ih]
      constructor
      · rintro hk (h1 | hm)
        · exact h h1.symm
        · exact hk hm
      · intro hk
        exact fun hm => hk (Or.inr hm)

lemma mem_keys_of_alookup {l : List (Nat × α)} {k : Nat} {v : α}
    (h : alookup l k = some v) : k ∈ keys l := by
  by_contra hk
  rw [← alookup_eq_none] at hk
  simp [hk] at h

lemma alookup_isSome_of_mem {l : List (Nat × α)} {k : Nat} (h : k ∈ keys l) :
    ∃ v, alookup l k = some v := by
  cases hv : alookup l k with
  | none => exact absurd (alookup_eq_none.mp hv) (not_not_intro h)
  | some v => exact ⟨v, rfl⟩

lemma mem_keys_aremove {l : List (Nat × α)} {k a : Nat} :
    a ∈ keys (aremove l k) ↔ a ∈ keys l ∧ a ≠ k := by
  induction l with
  | nil => simp [aremove]
  | cons p t ih =>
    obtain ⟨k', v⟩ := p
    by_cases h : k' = k
    · subst h
      rw [aremove, if_pos rfl, ih, keys_cons, List.mem_cons]
      constructor
      · rintro ⟨h1, h2⟩
        exact ⟨Or.inr h1, h2⟩
      · rintro ⟨h1 | h1, h2⟩
        · exact absurd h1 h2
        · exact ⟨h1, h2⟩
    · rw [aremove, if_neg h, keys_cons, keys_cons, List.mem_cons, List.mem_cons, ih]
      constructor
      · rintro (rfl | ⟨h1, h2⟩)
        · exact ⟨Or.inl rfl, h⟩
        · exact ⟨Or.inr h1, h2⟩
      · rintro ⟨rfl | h1, h2⟩
        · exact Or.inl rfl
        · exact Or.inr ⟨h1, h2⟩

lemma alookup_aremove_self (l : List (Nat × α)) (k : Nat) :
    alookup (aremove l k) k = none := by
  rw [alookup_eq_none, mem_keys_aremove]
  simp

lemma alookup_aremove_ne {l : List (Nat × α)} {k a : Nat} (h : a ≠ k) :
    alookup (aremove l k) a = alookup l a := by
  induction l with
  | nil => rfl
  | cons p t ih =>
    obtain ⟨k', v⟩ := p
    by_cases hk : k' = k
    · have hka : ¬k' = a := fun e => h (e.symm.trans hk)
      rw [aremove, if_pos hk]
      simp only [alookup, if_neg hka]
      exact ih
    · rw [aremove, if_neg hk]
      simp only [alookup]
      by_cases ha : k' = a
      · rw [if_pos ha, if_pos ha]
      · rw [if_neg ha, if_neg ha]
        exact ih

lemma mem_keys_ainsert {l : List (Nat × α)} {k a : Nat} {v : α} :
    a ∈ keys (ainsert l k v) ↔ a = k ∨ (a ∈ keys l ∧ a ≠ k) := by
  simp [ainsert, mem_keys_aremove]

lemma alookup_ainsert_self (l : List (Nat × α)) (k : Nat) (v : α) :
    alookup (ainsert l k v) k = some v := by
  simp [ainsert, alookup]

lemma alookup_ainsert_ne {l : List (Nat × α)} {k a : Nat} {v : α} (h : a ≠ k) :
    alookup (ainsert l k v) a = alookup l a := by
  have : ¬k = a := fun e => h e.symm
  simp only [ainsert, alookup, if_neg this]
  exact alookup_aremove_ne h

lemma keys_creplace (l : List (Nat × α)) (k : Nat) (v : α) :
    keys (creplace l k v) = keys l := by
  induction l with
  | nil => rfl
  | cons p t ih =>
    obtain ⟨k', v'⟩ := p
    by_cases h : k' = k
    · rw [creplace, if_pos h, keys_cons, keys_cons]
    · rw [creplace, if_neg h, keys_cons, keys_cons, ih]

lemma alookup_creplace_self {l : List (Nat × α)} {k : Nat} (v : α)
    (h : k ∈ keys l) : alookup (creplace l k v) k = some v := by
  induction l with
  | nil => simp at h
  | cons p t ih =>
    obtain ⟨k', v'⟩ := p
    by_cases hk : k' = k
    · rw [creplace, if_pos hk]
      simp only [alookup, if_pos hk]
    · rw [creplace, if_neg hk]
      simp only [alookup, if_neg hk]
      rw [keys_cons] at h
      rcases List.mem_cons.mp h with he | ht
      · exact absurd he.symm hk
      · exact ih ht

lemma alookup_creplace_ne {l : List (Nat × α)} {k a : Nat} {v : α} (h : a ≠ k) :
    alookup (creplace l k v) a = alookup l a := by
  induction l with
  | nil => rfl
  | cons p t ih =>
    obtain ⟨k', v'⟩ := p
    by_cases hk : k' = k
    · have hka : ¬k' = a := fun e => h (e.symm.trans hk)
      rw [creplace, if_pos hk]
      simp only [alookup, if_neg hka]
    · rw [creplace, if_neg hk]
      simp only [alookup]
      by_cases ha : k' = a
      · rw [if_pos ha, if_pos ha]
      · rw [if_neg ha, if_neg ha]
        exact ih

lemma refTake_eq_none {l : List (Nat × α)} {k : Nat} :
    refTake l k = none ↔ k ∉ keys l := by
  induction l with
  | nil => simp [refTake]
  | cons p t ih =>
    obtain ⟨k', v⟩ := p
    by_cases h : k' = k
    · subst h
      rw [refTake, if_pos rfl, keys_cons]
      simp
    · rw [refTake, if_neg h, keys_cons]
      cases ht : refTake t k with
      | none =>
        have hk : k ∉ keys t := ih.mp ht
        have hk' : ¬k = k' := fun e => h e.symm
        simp [hk, hk']
      | some p' =>
        have hk : k ∈ keys t := by
          by_contra hc
          rw [← ih] at hc
          rw [hc] at ht
          cases ht
        simp [hk]

lemma refTake_some_spec {l : List (Nat × α)} {k : Nat} {v : α}
    {l' : List (Nat × α)} (h : refTake l k = some (v, l')) :
    ∃ l₁ l₂, l = l₁ ++ (k, v) :: l₂ ∧ l' = l₁ ++ l₂ ∧ k ∉ keys l₁ := by
  induction l generalizing l' with
  | nil => simp [refTake] at h
  | cons p t ih =>
    obtain ⟨k', v'⟩ := p
    by_cases hk : k' = k
    · subst hk
      rw [refTake, if_pos rfl] at h
      simp only [Option.some.injEq, Prod.mk.injEq] at h
      exact ⟨[], t, by simp [h.1], by simp [h.2], by simp⟩
    · rw [refTake, if_neg hk] at h
      cases ht : refTake t k with
      | none =>
        rw [ht] at h
        cases h
      | some pr =>
        obtain ⟨v'', t''⟩ := pr
        rw [ht] at h
        simp only [Option.map_some', Option.some.injEq, Prod.mk.injEq] at h
        have ht' : refTake t k = some (v, t'') := by rw [ht, h.1]
        obtain ⟨l₁, l₂, he, he', hn⟩ := ih ht'
        refine ⟨(k', v') :: l₁, l₂, by simp [he], ?_, ?_⟩
        · rw [← h.2, he']
          simp
        · have hk' : ¬k = k' := fun e => hk e.symm
          simp [hn, hk']

lemma refTake_count_self {l : List (Nat × α)} {k : Nat} {v : α}
    {l' : List (Nat × α)} (h : refTake l k = some (v, l')) :
    (keys l).count k = (keys l').count k + 1 := by
  obtain ⟨l₁, l₂, he, he', -⟩ := refTake_some_spec h
  subst he; subst he'
  simp [List.count_append, List.count_cons]
  omega

lemma refTake_count_ne {l : List (Nat × α)} {k a : Nat} {v : α}
    {l' : List (Nat × α)} (h : refTake l k = some (v, l')) (ha : a ≠ k) :
    (keys l').count a = (keys l).count a := by
  obtain ⟨l₁, l₂, he, he', -⟩ := refTake_some_spec h
  subst he; subst he'
  simp [List.count_append, List.count_cons, ha]

lemma refTake_keys_subset {l : List (Nat × α)} {k : Nat} {v : α}
    {l' : List (Nat × α)} (h : refTake l k = some (v, l')) :
    keys l' ⊆ keys l := by
  obtain ⟨l₁, l₂, he, he', -⟩ := refTake_some_spec h
  subst he; subst he'
  intro a ha
  simp only [keys_append] at ha ⊢
  rcases List.mem_append.mp ha with h' | h'
  · exact List.mem_append.mpr (Or.inl h')
  · exact List.mem_append.mpr (Or.inr (by simp [h']))

lemma keys_setTrue (l : List (Nat × Bool)) (a : Nat) :
    keys (setTrue l a) = keys l := by
  induction l with
  | nil => rfl
  | cons p t ih =>
    obtain ⟨k, v⟩ := p
    simp only [setTrue, List.map_cons, keys_cons] at ih ⊢
    rw [ih]

lemma alookup_setTrue_self {l : List (Nat × Bool)} {a : Nat} (h : a ∈ keys l) :
    alookup (setTrue l a) a = some true := by
  induction l with
  | nil => simp at h
  | cons p t ih =>
    obtain ⟨k, v⟩ := p
    by_cases hk : k = a
    · simp [setTrue, alookup, hk]
    · rw [keys_cons] at h
      rcases List.mem_cons.mp h with he | ht
      · exact absurd he.symm hk
      · simpa [setTrue, alookup, hk] using ih ht

lemma alookup_setTrue_ne {l : List (Nat × Bool)} {a b : Nat} (h : b ≠ a) :
    alookup (setTrue l a) b = alookup l b := by
  induction l with
  | nil => rfl
  | cons p t ih =>
    obtain ⟨k, v⟩ := p
    by_cases hb : k = b
    · subst hb
      simp [setTrue, alookup, h]
    · simpa [setTrue, alookup, hb] using ih

lemma count_eq_zero_of_not_mem {l : List Nat} {a : Nat} (h : a ∉ l) :
    l.count a = 0 :=
  List.count_eq_zero.mpr h

lemma keys_dropLast_subset (l : List (Nat × α)) :
    keys l.dropLast ⊆ keys l :=
  List.map_subset _ (List.dropLast_subset l)

end MapLemmas

/-! ## The cache bookkeeping invariant

Under the layer's own put discipline (`OkOp`), the cache never leaks an
address into two states at once: the checked-out (`pinned`) table and the LRU
are disjoint, every live reference's address is checked out, and no address
has two live references. -/

section Invariant

variable {T : Type} {S : StorableImpl T} {e : T}

/-- The bookkeeping invariant of `ObjCacheInner` plus the live references. -/
structure Inv (s : SysState T) : Prop where
  pin_cached : ∀ a, a ∈ keys s.cache.pinned → a ∉ keys s.cache.cached
  ref_pinned : ∀ a, a ∈ keys s.refs → a ∈ keys s.cache.pinned
  ref_count : ∀ a, (keys s.refs).count a ≤ 1

lemma Inv_initState (cap : Nat) (store : List Nat) :
    Inv (@initState T cap store) := by
  refine ⟨?_, ?_, ?_⟩ <;> intro a <;> simp [initState, keys]

lemma not_mem_refs_of_mem_cached {s : SysState T} (h : Inv s) {a : Nat}
    (hc : a ∈ keys s.cache.cached) : a ∉ keys s.refs :=
  fun hr => h.pin_cached a (h.ref_pinned a hr) hc

lemma Inv_getOp {s : SysState T} (h : Inv s) (a : Nat) : Inv (getOp s a) := by
  cases hc : alookup s.cache.cached a with
  | none => simpa [getOp, hc] using h
  | some r =>
    have hac : a ∈ keys s.cache.cached := mem_keys_of_alookup hc
    have har : a ∉ keys s.refs := not_mem_refs_of_mem_cached h hac
    refine ⟨?_, ?_, ?_⟩
    · intro b hb
      simp only [getOp, hc, mem_keys_ainsert] at hb
      rw [getOp, hc]
      simp only [mem_keys_aremove]
      rintro ⟨hbc, hba⟩
      rcases hb with rfl | ⟨hbp, _⟩
      · exact hba rfl
      · exact h.pin_cached b hbp hbc
    · intro b hb
      simp only [getOp, hc, keys_append] at hb ⊢
      rw [mem_keys_ainsert]
      rcases List.mem_append.mp hb with hb | hb
      · by_cases hba : b = a
        · exact Or.inl hba
        · exact Or.inr ⟨h.ref_pinned b hb, hba⟩
      · simp only [keys_cons, keys_nil] at hb
        rcases List.mem_cons.mp hb with rfl | hb
        · exact Or.inl rfl
        · simp at hb
    · intro b
      simp only [getOp, hc, keys_append, List.count_append]
      by_cases hba : b = a
      · subst hba
        rw [count_eq_zero_of_not_mem har]
        simp [keys]
      · have : (keys [(a, r)]).count b = 0 := by
          simp [keys, List.count_cons, hba]
        rw [this, Nat.add_zero]
        exact h.ref_count b

lemma Inv_putOp {s : SysState T} (h : Inv s) {o : Obj T}
    (hp : o.asAddr ∉ keys s.cache.pinned) (hc : o.asAddr ∉ keys s.cache.cached) :
    Inv (putOp s o) := by
  have har : o.asAddr ∉ keys s.refs := fun hr => hp (h.ref_pinned _ hr)
  refine ⟨?_, ?_, ?_⟩
  · intro b hb
    simp only [putOp, mem_keys_ainsert] at hb ⊢
    rcases hb with rfl | ⟨hbp, _⟩
    · exact hc
    · exact h.pin_cached b hbp
  · intro b hb
    simp only [putOp, keys_append] at hb ⊢
    rw [mem_keys_ainsert]
    rcases List.mem_append.mp hb with hb | hb
    · by_cases hba : b = o.asAddr
      · exact Or.inl hba
      · exact Or.inr ⟨h.ref_pinned b hb, hba⟩
    · simp only [keys_cons, keys_nil] at hb
      rcases List.mem_cons.mp hb with rfl | hb
      · exact Or.inl rfl
      · simp at hb
  · intro b
    simp only [putOp, keys_append, List.count_append]
    by_cases hba : b = o.asAddr
    · subst hba
      rw [count_eq_zero_of_not_mem har]
      simp [keys]
    · have : (keys [(o.asAddr, o)]).count b = 0 := by
        simp [keys, List.count_cons, hba]
      rw [this, Nat.add_zero]
      exact h.ref_count b

lemma Inv_popOp {s : SysState T} (h : Inv s) (a : Nat) : Inv (popOp s a) := by
  refine ⟨?_, ?_, ?_⟩
  · intro b hb
    simp only [popOp, keys_setTrue] at hb ⊢
    rw [mem_keys_aremove]
    rintro ⟨hbc, _⟩
    exact h.pin_cached b hb hbc
  · intro b hb
    simp only [popOp, keys_setTrue] at hb ⊢
    exact h.ref_pinned b hb
  · intro b
    simpa [popOp] using h.ref_count b

lemma Inv_writeOp {s : SysState T} (h : Inv s) (a : Nat) (f : T → T) :
    Inv (writeOp S s a f) := by
  cases hr : alookup s.refs a with
  | none => simpa [writeOp, hr] using h
  | some o =>
    cases he : (Obj.modify S o f).2 with
    | none =>
      refine ⟨?_, ?_, ?_⟩ <;> intro b <;>
        simp only [writeOp, hr, he, keys_creplace] <;>
        first
          | exact h.pin_cached b
          | exact h.ref_pinned b
          | exact h.ref_count b
    | some err =>
      refine ⟨?_, ?_, ?_⟩ <;> intro b <;>
        simp only [writeOp, hr, he, keys_creplace] <;>
        first
          | exact h.pin_cached b
          | exact h.ref_pinned b
          | exact h.ref_count b

lemma lruPut_keys_subset {cap : Nat} {cached : List (Nat × Obj T)} {a : Nat}
    {o : Obj T} {st : List Nat} :
    ∀ b ∈ keys (lruPut S cap cached a o st).1, b = a ∨ b ∈ keys cached := by
  intro b hb
  cases hc : alookup cached a with
  | some old =>
    simp only [lruPut, hc] at hb
    rcases List.mem_cons.mp hb with rfl | hb
    · exact Or.inl rfl
    · exact Or.inr (mem_keys_aremove.mp hb).1
  | none =>
    simp only [lruPut, hc] at hb
    by_cases hcap : cap ≤ cached.length
    · rw [if_pos hcap] at hb
      cases hl : cached.getLast? with
      | none =>
        rw [hl] at hb
        rcases List.mem_cons.mp hb with rfl | hb
        · exact Or.inl rfl
        · exact Or.inr hb
      | some p =>
        rw [hl] at hb
        rcases List.mem_cons.mp hb with rfl | hb
        · exact Or.inl rfl
        · exact Or.inr (keys_dropLast_subset cached hb)
    · rw [if_neg hcap] at hb
      rcases List.mem_cons.mp hb with rfl | hb
      · exact Or.inl rfl
      · exact Or.inr hb

lemma Inv_releaseOp {s : SysState T} (h : Inv s) (a : Nat) :
    Inv (releaseOp S s a) := by
  cases ht : refTake s.refs a with
  | none => simpa [releaseOp, ht] using h
  | some pr =>
    obtain ⟨o, refs'⟩ := pr
    have haf : a ∈ keys s.refs := by
      by_contra hn
      rw [← refTake_eq_none] at hn
      rw [hn] at ht
      cases ht
    have hap : a ∈ keys s.cache.pinned := h.ref_pinned a haf
    have hac : a ∉ keys s.cache.cached := h.pin_cached a hap
    have hcount : (keys refs').count a = 0 := by
      have := refTake_count_self ht
      have h1 := h.ref_count a
      omega
    have hanotref : a ∉ keys refs' := by
      intro hm
      rw [← List.count_pos_iff] at hm
      omega
    have hsub : keys refs' ⊆ keys s.refs := refTake_keys_subset ht
    have hcnt' : ∀ b, (keys refs').count b ≤ 1 := by
      intro b
      by_cases hba : b = a
      · subst hba; omega
      · rw [refTake_count_ne ht hba]
        exact h.ref_count b
    have hrefs' : ∀ b, b ∈ keys refs' → b ∈ keys (aremove s.cache.pinned a) := by
      intro b hb
      rw [mem_keys_aremove]
      refine ⟨h.ref_pinned b (hsub hb), ?_⟩
      rintro rfl
      exact hanotref hb
    cases hp : alookup s.cache.pinned a with
    | some fl =>
      cases fl with
      | true =>
        refine ⟨?_, ?_, ?_⟩
        · intro b hb
          simp only [releaseOp, ht, hp, mem_keys_aremove] at hb ⊢
          exact h.pin_cached b hb.1
        · intro b hb
          simp only [releaseOp, ht, hp] at hb ⊢
          exact hrefs' b hb
        · intro b
          simp only [releaseOp, ht, hp]
          exact hcnt' b
      | false =>
        refine ⟨?_, ?_, ?_⟩
        · intro b hb
          simp only [releaseOp, ht, hp, mem_keys_aremove] at hb ⊢
          intro hbc
          rcases lruPut_keys_subset b hbc with rfl | hbc'
          · exact hb.2 rfl
          · exact h.pin_cached b hb.1 hbc'
        · intro b hb
          simp only [releaseOp, ht, hp] at hb ⊢
          exact hrefs' b hb
        · intro b
          simp only [releaseOp, ht, hp]
          exact hcnt' b
    | none =>
      refine ⟨?_, ?_, ?_⟩
      · intro b hb
        simp only [releaseOp, ht, hp, mem_keys_aremove] at hb ⊢
        intro hbc
        rcases lruPut_keys_subset b hbc with rfl | hbc'
        · exact hb.2 rfl
        · exact h.pin_cached b hb.1 hbc'
      · intro b hb
        simp only [releaseOp, ht, hp] at hb ⊢
        exact hrefs' b hb
      · intro b
        simp only [releaseOp, ht, hp]
        exact hcnt' b

lemma Inv_intoInnerOp {s : SysState T} (h : Inv s) (a : Nat) :
    Inv (intoInnerOp S e s a) := by
  cases ht : refTake s.refs a with
  | none => simpa [intoInnerOp, ht] using h
  | some pr =>
    obtain ⟨o, refs'⟩ := pr
    have hsub : keys refs' ⊆ keys s.refs := refTake_keys_subset ht
    refine ⟨?_, ?_, ?_⟩
    · intro b
      simp only [intoInnerOp, ht]
      exact h.pin_cached b
    · intro b hb
      simp only [intoInnerOp, ht] at hb ⊢
      exact h.ref_pinned b (hsub hb)
    · intro b
      simp only [intoInnerOp, ht]
      by_cases hba : b = a
      · subst hba
        have := refTake_count_self ht
        have := h.ref_count b
        omega
      · rw [refTake_count_ne ht hba]
        exact h.ref_count b

lemma flushFold_keys (l : List Nat) :
    ∀ (c : List (Nat × Obj T)) (st : List Nat),
      keys (l.foldl (flushOne S) (c, st)).1 = keys c := by
  induction l with
  | nil => intro c st; rfl
  | cons b t ih =>
    intro c st
    rw [List.foldl_cons]
    cases hb : alookup c b with
    | none => simpa [flushOne, hb] using ih c st
    | some o =>
      simp only [flushOne, hb]
      rw [ih, keys_creplace]

lemma Inv_flushStep {s : SysState T} (h : Inv s) :
    Inv (step S e s Op.flush) := by
  by_cases hp : s.cache.pinned = []
  · have hs : step S e s Op.flush =
        { s with
          cache := { s.cache with
            cached := (s.cache.dirty.foldl (flushOne S) (s.cache.cached, s.store)).1,
            dirty := [] },
          store := (s.cache.dirty.foldl (flushOne S) (s.cache.cached, s.store)).2 } := by
      simp [step, flushDirtyCache, hp]
    rw [hs]
    refine ⟨?_, ?_, ?_⟩
    · intro b hb
      simp only at hb
      rw [hp] at hb
      simp [keys] at hb
    · intro b hb
      simp only at hb ⊢
      rw [hp]
      have := h.ref_pinned b hb
      rw [hp] at this
      simp [keys] at this
    · intro b
      exact h.ref_count b
  · have hs : step S e s Op.flush = s := by
      simp [step, flushDirtyCache, hp]
    rw [hs]
    exact h

lemma Inv_step {s : SysState T} {op : Op T} (h : Inv s) (hop : OkOp s op = true) :
    Inv (step S e s op) := by
  cases op with
  | get a => exact Inv_getOp h a
  | put o =>
    simp only [OkOp, Bool.and_eq_true, Option.isNone_iff_eq_none] at hop
    exact Inv_putOp h (alookup_eq_none.mp hop.1) (alookup_eq_none.mp hop.2)
  | pop a => exact Inv_popOp h a
  | flush => exact Inv_flushStep h
  | write a f => exact Inv_writeOp h a f
  | release a => exact Inv_releaseOp h a
  | intoInner a => exact Inv_intoInnerOp h a

lemma Inv_exec {s : SysState T} {ops : List (Op T)} (h : Inv s)
    (hok : OkTrace S e s ops = true) : Inv (exec S e s ops) := by
  induction ops generalizing s with
  | nil => exact h
  | cons op t ih =>
    simp only [OkTrace, Bool.and_eq_true] at hok
    exact ih (Inv_step h hok.1) hok.2

/-- Every disciplined-reachable state satisfies the bookkeeping invariant. -/
lemma DReach_Inv {s : SysState T} (h : DReach S e s) : Inv s := by
  obtain ⟨cap, store, ops, -, hok, he⟩ := h
  rw [← he]
  exact Inv_exec (Inv_initState cap store) hok

end Invariant

/-! ## Persistence of invalidation marks and of leaked checkout entries -/

section Persistence

variable {T : Type} {S : StorableImpl T} {e : T}

lemma refTake_mem_ne {α : Type} {l l' : List (Nat × α)} {k a : Nat} {v : α}
    (h : refTake l k = some (v, l')) (ha : a ≠ k) (hm : a ∈ keys l) :
    a ∈ keys l' := by
  obtain ⟨l₁, l₂, he, he', -⟩ := refTake_some_spec h
  subst he
  subst he'
  simp only [keys_append, keys_cons, List.mem_append, List.mem_cons] at hm ⊢
  rcases hm with h1 | h1
  · exact Or.inl h1
  · rcases h1 with h1 | h1
    · exact absurd h1 ha
    · exact Or.inr h1

lemma ne_nil_of_mem_keys {α : Type} {l : List (Nat × α)} {a : Nat}
    (h : a ∈ keys l) : l ≠ [] := by
  intro he
  subst he
  simp [keys] at h

lemma flushDirtyCache_eq_none {s : SysState T} (h : s.cache.pinned ≠ []) :
    flushDirtyCache S s = none := by
  simp [flushDirtyCache, h]

lemma step_flush_busy {s : SysState T} (h : s.cache.pinned ≠ []) :
    step S e s Op.flush = s := by
  simp [step, flushDirtyCache, h]

lemma writeOp_cache_pinned (s : SysState T) (a : Nat) (f : T → T) :
    (writeOp S s a f).cache.pinned = s.cache.pinned := by
  cases hr : alookup s.refs a with
  | none => simp [writeOp, hr]
  | some o =>
    cases hm : (Obj.modify S o f).2 with
    | none => simp [writeOp, hr, hm]
    | some err => simp [writeOp, hr, hm]

lemma writeOp_cache_cached (s : SysState T) (a : Nat) (f : T → T) :
    (writeOp S s a f).cache.cached = s.cache.cached := by
  cases hr : alookup s.refs a with
  | none => simp [writeOp, hr]
  | some o =>
    cases hm : (Obj.modify S o f).2 with
    | none => simp [writeOp, hr, hm]
    | some err => simp [writeOp, hr, hm]

lemma writeOp_keys_refs (s : SysState T) (a : Nat) (f : T → T) :
    keys (writeOp S s a f).refs = keys s.refs := by
  cases hr : alookup s.refs a with
  | none => simp [writeOp, hr]
  | some o =>
    cases hm : (Obj.modify S o f).2 with
    | none => simp [writeOp, hr, hm, keys_creplace]
    | some err => simp [writeOp, hr, hm, keys_creplace]

/-- After `pop(addr)` hits a checked-out address: the discard flag stays
`true`, the reference stays live, and the address stays out of the LRU. -/
def PopPersist (addr : Nat) (s : SysState T) : Prop :=
  alookup s.cache.pinned addr = some true ∧ addr ∈ keys s.refs ∧
    addr ∉ keys s.cache.cached

/-- Operations that consume the live reference for `addr`. -/
def consumesRef {T : Type} (op : Op T) (addr : Nat) : Bool :=
  match op with
  | Op.release a => a == addr
  | Op.intoInner a => a == addr
  | _ => false

lemma PopPersist_step {addr : Nat} {s : SysState T} {op : Op T}
    (h : PopPersist addr s) (hop : OkOp s op = true)
    (hav : consumesRef op addr = false) :
    PopPersist addr (step S e s op) := by
  obtain ⟨hpin, href, hcache⟩ := h
  have hmem : addr ∈ keys s.cache.pinned := mem_keys_of_alookup hpin
  cases op with
  | get a =>
    show PopPersist addr (getOp s a)
    cases hc : alookup s.cache.cached a with
    | none => simpa [getOp, hc, PopPersist] using ⟨hpin, href, hcache⟩
    | some r =>
      have hna : addr ≠ a := by
        rintro rfl
        exact hcache (mem_keys_of_alookup hc)
      refine ⟨?_, ?_, ?_⟩
      · simp only [getOp, hc]
        rw [alookup_ainsert_ne hna]
        exact hpin
      · simp only [getOp, hc, keys_append]
        exact List.mem_append.mpr (Or.inl href)
      · simp only [getOp, hc, mem_keys_aremove]
        rintro ⟨h1, -⟩
        exact hcache h1
  | put o =>
    show PopPersist addr (putOp s o)
    simp only [OkOp, Bool.and_eq_true, Option.isNone_iff_eq_none] at hop
    have hna : addr ≠ o.asAddr := by
      rintro rfl
      exact alookup_eq_none.mp hop.1 hmem
    refine ⟨?_, ?_, ?_⟩
    · simp only [putOp]
      rw [alookup_ainsert_ne hna]
      exact hpin
    · simp only [putOp, keys_append]
      exact List.mem_append.mpr (Or.inl href)
    · simpa [putOp] using hcache
  | pop a =>
    show PopPersist addr (popOp s a)
    refine ⟨?_, ?_, ?_⟩
    · simp only [popOp]
      by_cases ha : addr = a
      · subst ha
        exact alookup_setTrue_self hmem
      · rw [alookup_setTrue_ne ha]
        exact hpin
    · simpa [popOp] using href
    · simp only [popOp, mem_keys_aremove]
      rintro ⟨h1, -⟩
      exact hcache h1
  | flush =>
    rw [step_flush_busy (ne_nil_of_mem_keys hmem)]
    exact ⟨hpin, href, hcache⟩
  | write a f =>
    show PopPersist addr (writeOp S s a f)
    refine ⟨?_, ?_, ?_⟩
    · rw [writeOp_cache_pinned]
      exact hpin
    · rw [writeOp_keys_refs]
      exact href
    · rw [writeOp_cache_cached]
      exact hcache
  | release a =>
    show PopPersist addr (releaseOp S s a)
    have hna : addr ≠ a := by
      rintro rfl
      simp [consumesRef] at hav
    cases ht : refTake s.refs a with
    | none => simpa [releaseOp, ht, PopPersist] using ⟨hpin, href, hcache⟩
    | some pr =>
      obtain ⟨o, refs'⟩ := pr
      have hpin' : alookup (aremove s.cache.pinned a) addr = some true := by
        rw [alookup_aremove_ne hna]
        exact hpin
      have href' : addr ∈ keys refs' := refTake_mem_ne ht hna href
      cases hp : alookup s.cache.pinned a with
      | some fl =>
        cases fl with
        | true =>
          refine ⟨?_, ?_, ?_⟩
          · simpa only [releaseOp, ht, hp] using hpin'
          · simpa only [releaseOp, ht, hp] using href'
          · simpa only [releaseOp, ht, hp] using hcache
        | false =>
          refine ⟨?_, ?_, ?_⟩
          · simpa only [releaseOp, ht, hp] using hpin'
          · simpa only [releaseOp, ht, hp] using href'
          · simp only [releaseOp, ht, hp]
            intro hbc
            rcases lruPut_keys_subset addr hbc with rfl | hbc'
            · exact hna rfl
            · exact hcache hbc'
      | none =>
        refine ⟨?_, ?_, ?_⟩
        · simpa only [releaseOp, ht, hp] using hpin'
        · simpa only [releaseOp, ht, hp] using href'
        · simp only [releaseOp, ht, hp]
          intro hbc
          rcases lruPut_keys_subset addr hbc with rfl | hbc'
          · exact hna rfl
          · exact hcache hbc'
  | intoInner a =>
    show PopPersist addr (intoInnerOp S e s a)
    have hna : addr ≠ a := by
      rintro rfl
      simp [consumesRef] at hav
    cases ht : refTake s.refs a with
    | none => simpa [intoInnerOp, ht, PopPersist] using ⟨hpin, href, hcache⟩
    | some pr =>
      obtain ⟨o, refs'⟩ := pr
      refine ⟨?_, ?_, ?_⟩
      · simpa only [intoInnerOp, ht] using hpin
      · simpa only [intoInnerOp, ht] using refTake_mem_ne ht hna href
      · simpa only [intoInnerOp, ht] using hcache

lemma PopPersist_exec {addr : Nat} {s : SysState T} {ops : List (Op T)}
    (h : PopPersist addr s) (hok : OkTrace S e s ops = true)
    (hav : ops.all (fun op => !consumesRef op addr) = true) :
    PopPersist addr (exec S e s ops) := by
  induction ops generalizing s with
  | nil => exact h
  | cons op t ih =>
    simp only [OkTrace, Bool.and_eq_true] at hok
    simp only [List.all_cons, Bool.and_eq_true, Bool.not_eq_true'] at hav
    exact ih (PopPersist_step h hok.1 hav.1) hok.2 hav.2

/-- Releasing a reference whose address was invalidated while checked out:
the store is untouched, the address is not reinserted into the LRU, and the
discard entry is consumed. -/
lemma release_of_popped {addr : Nat} {s : SysState T} (h : PopPersist addr s) :
    (releaseOp S s addr).store = s.store ∧
    addr ∉ keys (releaseOp S s addr).cache.cached ∧
    (releaseOp S s addr).cache.pinned = aremove s.cache.pinned addr := by
  obtain ⟨hpin, href, hcache⟩ := h
  obtain ⟨o, refs', ht⟩ : ∃ o refs', refTake s.refs addr = some (o, refs') := by
    cases ht : refTake s.refs addr with
    | none => exact absurd (refTake_eq_none.mp ht) (not_not_intro href)
    | some pr =>
      obtain ⟨o, refs'⟩ := pr
      exact ⟨o, refs', rfl⟩
  simp only [releaseOp, ht, hpin]
  exact ⟨trivial, hcache, trivial⟩

/-- After `into_inner` the checkout entry for the consumed reference's address
is leaked: it stays in `pinned` while no live reference and no LRU entry for
the address exists. -/
def Leaked (addr : Nat) (s : SysState T) : Prop :=
  addr ∈ keys s.cache.pinned ∧ addr ∉ keys s.refs ∧ addr ∉ keys s.cache.cached

lemma Leaked_step {addr : Nat} {s : SysState T} {op : Op T}
    (h : Leaked addr s) (hop : OkOp s op = true) :
    Leaked addr (step S e s op) := by
  obtain ⟨hpin, href, hcache⟩ := h
  cases op with
  | get a =>
    show Leaked addr (getOp s a)
    cases hc : alookup s.cache.cached a with
    | none => simpa [getOp, hc, Leaked] using ⟨hpin, href, hcache⟩
    | some r =>
      have hna : addr ≠ a := by
        rintro rfl
        exact hcache (mem_keys_of_alookup hc)
      refine ⟨?_, ?_, ?_⟩
      · simp only [getOp, hc, mem_keys_ainsert]
        exact Or.inr ⟨hpin, hna⟩
      · simp only [getOp, hc, keys_append]
        intro hm
        rcases List.mem_append.mp hm with hm | hm
        · exact href hm
        · simp only [keys_cons, keys_nil] at hm
          rcases List.mem_cons.mp hm with he | hm
          · exact hna he
          · simp at hm
      · simp only [getOp, hc, mem_keys_aremove]
        rintro ⟨h1, -⟩
        exact hcache h1
  | put o =>
    show Leaked addr (putOp s o)
    simp only [OkOp, Bool.and_eq_true, Option.isNone_iff_eq_none] at hop
    have hna : addr ≠ o.asAddr := by
      rintro rfl
      exact alookup_eq_none.mp hop.1 hpin
    refine ⟨?_, ?_, ?_⟩
    · simp only [putOp, mem_keys_ainsert]
      exact Or.inr ⟨hpin, hna⟩
    · simp only [putOp, keys_append]
      intro hm
      rcases List.mem_append.mp hm with hm | hm
      · exact href hm
      · simp only [keys_cons, keys_nil] at hm
        rcases List.mem_cons.mp hm with he | hm
        · exact hna he
        · simp at hm
    · simpa [putOp] using hcache
  | pop a =>
    show Leaked addr (popOp s a)
    refine ⟨?_, ?_, ?_⟩
    · simpa only [popOp, keys_setTrue] using hpin
    · simpa [popOp] using href
    · simp only [popOp, mem_keys_aremove]
      rintro ⟨h1, -⟩
      exact hcache h1
  | flush =>
    rw [step_flush_busy (ne_nil_of_mem_keys hpin)]
    exact ⟨hpin, href, hcache⟩
  | write a f =>
    show Leaked addr (writeOp S s a f)
    refine ⟨?_, ?_, ?_⟩
    · rw [writeOp_cache_pinned]
      exact hpin
    · rw [writeOp_keys_refs]
      exact href
    · rw [writeOp_cache_cached]
      exact hcache
  | release a =>
    show Leaked addr (releaseOp S s a)
    by_cases hna : a = addr
    · subst hna
      have ht : refTake s.refs a = none := refTake_eq_none.mpr href
      simpa [releaseOp, ht, Leaked] using ⟨hpin, href, hcache⟩
    · have hna' : addr ≠ a := fun e => hna e.symm
      cases ht : refTake s.refs a with
      | none => simpa [releaseOp, ht, Leaked] using ⟨hpin, href, hcache⟩
      | some pr =>
        obtain ⟨o, refs'⟩ := pr
        have hpin' : addr ∈ keys (aremove s.cache.pinned a) :=
          mem_keys_aremove.mpr ⟨hpin, hna'⟩
        have href' : addr ∉ keys refs' :=
          fun hm => href (refTake_keys_subset ht hm)
        have hcc : ∀ c : List (Nat × Obj T),
            (∀ b, b ∈ keys c → b = a ∨ b ∈ keys s.cache.cached) →
            addr ∉ keys c := by
          intro c hc hm
          rcases hc addr hm with rfl | hm'
          · exact hna' rfl
          · exact hcache hm'
        cases hp : alookup s.cache.pinned a with
        | some fl =>
          cases fl with
          | true =>
            refine ⟨?_, ?_, ?_⟩
            · simpa only [releaseOp, ht, hp] using hpin'
            · simpa only [releaseOp, ht, hp] using href'
            · simpa only [releaseOp, ht, hp] using hcache
          | false =>
            refine ⟨?_, ?_, ?_⟩
            · simpa only [releaseOp, ht, hp] using hpin'
            · simpa only [releaseOp, ht, hp] using href'
            · simp only [releaseOp, ht, hp]
              exact hcc _ (fun b hb => lruPut_keys_subset b hb)
        | none =>
          refine ⟨?_, ?_, ?_⟩
          · simpa only [releaseOp, ht, hp] using hpin'
          · simpa only [releaseOp, ht, hp] using href'
          · simp only [releaseOp, ht, hp]
            exact hcc _ (fun b hb => lruPut_keys_subset b hb)
  | intoInner a =>
    show Leaked addr (intoInnerOp S e s a)
    by_cases hna : a = addr
    · subst hna
      have ht : refTake s.refs a = none := refTake_eq_none.mpr href
      simpa [intoInnerOp, ht, Leaked] using ⟨hpin, href, hcache⟩
    · cases ht : refTake s.refs a with
      | none => simpa [intoInnerOp, ht, Leaked] using ⟨hpin, href, hcache⟩
      | some pr =>
        obtain ⟨o, refs'⟩ := pr
        refine ⟨?_, ?_, ?_⟩
        · simpa only [intoInnerOp, ht] using hpin
        · simp only [intoInnerOp, ht]
          exact fun hm => href (refTake_keys_subset ht hm)
        · simpa only [intoInnerOp, ht] using hcache

lemma Leaked_exec {addr : Nat} {s : SysState T} {ops : List (Op T)}
    (h : Leaked addr s) (hok : OkTrace S e s ops = true) :
    Leaked addr (exec S e s ops) := by
  induction ops generalizing s with
  | nil => exact h
  | cons op t ih =>
    simp only [OkTrace, Bool.and_eq_true] at hok
    exact ih (Leaked_step h hok.1) hok.2

end Persistence

/-! ## Byte-level lemmas and the barrier-flush fold -/

section Bytes

lemma readRange_writeBytes {data change : List Nat} {offset : Nat}
    (h : offset + change.length ≤ data.length) :
    readRange (writeBytes data offset change) offset change.length = change := by
  unfold writeBytes readRange
  have h1 : change.length ≤ data.length - offset := by omega
  rw [List.take_of_length_le h1]
  have h2 : (data.take offset).length = offset := by
    rw [List.length_take]
    omega
  rw [List.append_assoc, List.drop_left' h2, List.take_left' rfl]

lemma serializeIntoBuf_eq {len : Nat} {bs : List Nat} (h : bs.length = len) :
    serializeIntoBuf len bs = bs := by
  unfold serializeIntoBuf
  rw [h, Nat.sub_self, List.replicate_zero, List.append_nil,
    List.take_of_length_le (Nat.le_of_eq h)]

lemma flushDirtyT_fst {T : Type} (S : StorableImpl T) (o : Obj T) (st : List Nat) :
    (Obj.flushDirtyT S o st).1 = { o with dirty := none } := by
  obtain ⟨v, d⟩ := o
  cases d <;> rfl

variable {T : Type} {S : StorableImpl T}

lemma flushFold_alookup_not_mem {l : List Nat} {a : Nat} (ha : a ∉ l) :
    ∀ (c : List (Nat × Obj T)) (st : List Nat),
      alookup (l.foldl (flushOne S) (c, st)).1 a = alookup c a := by
  induction l with
  | nil => intro c st; rfl
  | cons b t ih =>
    intro c st
    have hab : a ≠ b := fun e => ha (e ▸ List.mem_cons_self b t)
    have hat : a ∉ t := fun hm => ha (List.mem_cons_of_mem b hm)
    rw [List.foldl_cons]
    cases hb : alookup c b with
    | none => simpa [flushOne, hb] using ih hat c st
    | some o =>
      simp only [flushOne, hb]
      rw [ih hat, alookup_creplace_ne hab]

lemma flushFold_alookup_mem {l : List Nat} {a : Nat} (ha : a ∈ l) :
    ∀ (c : List (Nat × Obj T)) (st : List Nat),
      alookup (l.foldl (flushOne S) (c, st)).1 a
        = (alookup c a).map (fun o => { o with dirty := none }) := by
  induction l with
  | nil => simp at ha
  | cons b t ih =>
    intro c st
    rw [List.foldl_cons]
    by_cases hat : a ∈ t
    · have step1 : ∀ (c₁ : List (Nat × Obj T)) (st₁ : List Nat),
          alookup (t.foldl (flushOne S) (c₁, st₁)).1 a
            = (alookup c₁ a).map (fun o => { o with dirty := none }) := ih hat
      cases hb : alookup c b with
      | none =>
        simp only [flushOne, hb]
        exact step1 c st
      | some o =>
        simp only [flushOne, hb]
        by_cases hab : a = b
        · subst hab
          rw [step1, alookup_creplace_self _ (mem_keys_of_alookup hb), flushDirtyT_fst, hb]
          rfl
        · rw [step1, alookup_creplace_ne hab]
    · have hab : a = b := by
        rcases List.mem_cons.mp ha with h | h
        · exact h
        · exact absurd h hat
      subst hab
      cases hb : alookup c a with
      | none =>
        simp only [flushOne, hb]
        rw [flushFold_alookup_not_mem hat, hb]
        rfl
      | some o =>
        simp only [flushOne, hb]
        rw [flushFold_alookup_not_mem hat,
          alookup_creplace_self _ (mem_keys_of_alookup hb), flushDirtyT_fst]
        rfl

end Bytes

/-! ## Concrete fixtures for witnesses and counterexamples -/

/-- A clean handle at offset 1, ceiling 5, holding the value 2. -/
def oA : Obj Nat :=
  { value := { item := 2, offset := 1, lenLimit := 5 }, dirty := none }

/-- A dirty handle at offset 1 whose recorded dirty length matches. -/
def oAd : Obj Nat :=
  { value := { item := 2, offset := 1, lenLimit := 5 }, dirty := some 2 }

/-- A clean handle at offset 2. -/
def oB : Obj Nat :=
  { value := { item := 3, offset := 2, lenLimit := 5 }, dirty := none }

/-- A clean handle at offset 1 holding the value 3. -/
def o35 : Obj Nat :=
  { value := { item := 3, offset := 1, lenLimit := 5 }, dirty := none }

/-- The fixture handle after a successful mutation to 3. -/
def oA3d : Obj Nat :=
  { value := { item := 3, offset := 1, lenLimit := 5 }, dirty := some 3 }

/-- An eight-byte zeroed store. -/
def st8 : List Nat := List.replicate 8 0

/-- A writable, accepting linear store over eight zero bytes. -/
def stGood : LinearStoreM := { bytes := st8, writeable := true, writeOk := true }

/-- A writable linear store whose medium rejects writes. -/
def stBad : LinearStoreM := { bytes := st8, writeable := true, writeOk := false }

/-! ## Claims -/

/-- **C5, counterexample.**  The claim says an oversize `modify` "leaves the
dirty marker unset"; on a handle that was already dirty (a first mutation
recorded length 2), an oversize mutation returns the oversize error but the
dirty marker stays `some 2` — set, not unset — while the in-memory value is
the mutated 9. -/
theorem C5_counterexample :
    (Obj.modify natS (Obj.modify natS o35 (fun _ => 2)).1 (fun _ => 9)).2
        = some ObjWriteSizeError.mk ∧
    (Obj.modify natS (Obj.modify natS o35 (fun _ => 2)).1 (fun _ => 9)).1.dirty = some 2 ∧
    (Obj.modify natS (Obj.modify natS o35 (fun _ => 2)).1 (fun _ => 9)).1.value.item = 9 := by
  decide

/-- **C5, amended.**  When `f` pushes the serialized length past the ceiling,
`Obj::modify` returns the oversize error, leaves the dirty marker *unchanged*
(hence unset only if it was unset before), and does not roll back the
in-memory mutation. -/
theorem C5_modify_oversize {T : Type} (S : StorableImpl T) (o : Obj T) (f : T → T)
    (h : o.value.lenLimit < S.serializedLen (f o.value.item)) :
    Obj.modify S o f =
      ({ value := { item := f o.value.item, offset := o.value.offset, lenLimit := o.value.lenLimit }, dirty := o.dirty },
        some ObjWriteSizeError.mk) := by
  have hnone : StoredView.serializedLenOpt S
      { item := f o.value.item, offset := o.value.offset, lenLimit := o.value.lenLimit } = none := by
    simp [StoredView.serializedLenOpt, h]
  unfold Obj.modify
  rw [hnone]

/-- Witness for `C5_modify_oversize` at a dirty handle. -/
theorem C5_modify_oversize_witness :
    oAd.value.lenLimit < natS.serializedLen 9 ∧
    Obj.modify natS oAd (fun _ => 9) =
      ({ value := { item := 9, offset := 1, lenLimit := 5 }, dirty := some 2 },
        some ObjWriteSizeError.mk) :=
  ⟨by decide, C5_modify_oversize natS oAd (fun _ => 9) (by decide)⟩

/-- **C6.**  Write-through: after a successful `modify` with mutated value
`f v`, flushing the handle (which `Drop for Obj` performs) writes
`serialize (f v)` at the handle's offset and clears the dirty marker; the
dirty handle is never dropped without this write happening. -/
theorem C6_write_through {T : Type} (S : StorableImpl T) (o o' : Obj T) (f : T → T)
    (st : LinearStoreM)
    (hm : Obj.modify S o f = (o', none))
    (hw : st.writeable = true) (hok : st.writeOk = true)
    (hb : o.value.offset + S.serializedLen (f o.value.item) ≤ st.bytes.length) :
    ∃ st', Obj.flushDirty S o' st = FlushOutcome.ok ({ o' with dirty := none }, st') ∧
      readRange st'.bytes o.value.offset (S.serializedLen (f o.value.item))
        = S.serializeBytes (f o.value.item) := by
  unfold Obj.modify at hm
  cases hs : StoredView.serializedLenOpt S
      { item := f o.value.item, offset := o.value.offset, lenLimit := o.value.lenLimit } with
  | none =>
    rw [hs] at hm
    simp at hm
  | some len =>
    rw [hs] at hm
    have ho' : o' =
        { value := { item := f o.value.item, offset := o.value.offset, lenLimit := o.value.lenLimit }, dirty := some len } :=
      (congrArg Prod.fst hm).symm
    have hlen : len = S.serializedLen (f o.value.item) := by
      unfold StoredView.serializedLenOpt at hs
      simp only at hs
      split at hs
      · cases hs
      · injection hs with hs'
        exact hs'.symm
    subst ho'
    subst hlen
    refine ⟨{ st with bytes := writeBytes st.bytes o.value.offset (S.serializeBytes (f o.value.item)) },
      ?_, ?_⟩
    · unfold Obj.flushDirty LinearStoreM.write
      simp [hw, hok]
    · have hc : (S.serializeBytes (f o.value.item)).length
          = S.serializedLen (f o.value.item) := S.serialize_length _
      have hr := @readRange_writeBytes st.bytes (S.serializeBytes (f o.value.item))
        o.value.offset (by rw [hc]; exact hb)
      rw [hc] at hr
      exact hr

/-- Witness for `C6_write_through`: mutate the fixture handle to 3 and flush
into the eight-byte store. -/
theorem C6_write_through_witness :
    Obj.modify natS oA (fun _ => 3) = (oA3d, none) ∧
    ∃ st', Obj.flushDirty natS oA3d stGood = FlushOutcome.ok ({ oA3d with dirty := none }, st') ∧
      readRange st'.bytes oA.value.offset (natS.serializedLen 3) = natS.serializeBytes 3 :=
  ⟨by decide,
    C6_write_through natS oA oA3d (fun _ => 3) stGood (by decide) (by decide) (by decide)
      (by decide)⟩

/-- **C7.**  `StoredView::slice` rejects a parent with unflushed dirty state
with the invalid-object error, and on a clean parent returns a child handle
whose offset is the parent's offset plus the sub-offset. -/
theorem C7_slice {T U : Type} (s : Obj T) (offset length : Nat) (item : U) :
    (∀ d, s.dirty = some d →
      StoredView.slice s offset length item =
        Except.error (ShaleErr.invalidObj offset "dirty write")) ∧
    (s.dirty = none →
      StoredView.slice s offset length item =
        Except.ok { value := { item := item, offset := s.value.offset + offset, lenLimit := length }, dirty := none }) := by
  constructor
  · intro d hd
    unfold StoredView.slice
    simp [hd]
  · intro hd
    unfold StoredView.slice
    simp [hd]

/-- Witness for `C7_slice`: the dirty fixture parent is rejected; the clean
fixture parent at offset 2 yields a child at offset 2 + 1. -/
theorem C7_slice_witness :
    StoredView.slice oAd 1 2 (0 : Nat) =
      Except.error (ShaleErr.invalidObj 1 "dirty write") ∧
    StoredView.slice oB 1 2 (0 : Nat) =
      Except.ok { value := { item := 0, offset := 3, lenLimit := 2 }, dirty := none } :=
  ⟨(C7_slice oAd 1 2 0).1 2 rfl, (C7_slice oB 1 2 0).2 rfl⟩

/-- **C8, counterexample.**  The claim says a failed store write during flush
is "propagated to the caller"; in the source `Obj::flush_dirty` returns unit
and `expect`s the write result, so a rejected write aborts the process
(`panicked`) instead of returning any error value: on the fixture dirty
handle over a store whose medium rejects writes, the flush panics with the
I/O error. -/
theorem C8_counterexample :
    Obj.flushDirty natS oAd stBad = FlushOutcome.panicked ShaleErr.io := by
  decide

/-- **C8, amended.**  A failed store write during the flush of a dirty handle
is not silently swallowed and not partially applied: the flush aborts
(panics) carrying exactly the store's error, and produces no resulting
store state at all. -/
theorem C8_flush_write_failure {T : Type} (S : StorableImpl T) (o : Obj T)
    (st : LinearStoreM) (len : Nat) (err : ShaleErr)
    (hd : o.dirty = some len)
    (hl : S.serializedLen o.value.item = len)
    (hw : st.write o.value.offset (S.serializeBytes o.value.item) = Except.error err) :
    Obj.flushDirty S o st = FlushOutcome.panicked err := by
  unfold Obj.flushDirty
  rw [hd]
  simp [hl, hw]

/-- Witness for `C8_flush_write_failure` on the rejecting store. -/
theorem C8_flush_write_failure_witness :
    oAd.dirty = some 2 ∧ natS.serializedLen oAd.value.item = 2 ∧
    stBad.write oAd.value.offset (natS.serializeBytes oAd.value.item) =
      Except.error ShaleErr.io ∧
    Obj.flushDirty natS oAd stBad = FlushOutcome.panicked ShaleErr.io :=
  ⟨rfl, by decide, rfl,
    C8_flush_write_failure natS oAd stBad 2 ShaleErr.io rfl (by decide) rfl⟩

/-- **C1.**  `ObjCache::flush_dirty` is the barrier: it returns "busy"
(`none`) exactly when some address is checked out; otherwise it succeeds,
clears the dirty set, flushes (clears the marker of) every dirty address
still resident in the LRU, and leaves the other LRU entries untouched. -/
theorem C1_flush_dirty_barrier {T : Type} (S : StorableImpl T) (s : SysState T) :
    (flushDirtyCache S s = none ↔ s.cache.pinned ≠ []) ∧
    (s.cache.pinned = [] →
      ∃ s', flushDirtyCache S s = some s' ∧ s'.cache.dirty = [] ∧
        (∀ a o, a ∈ s.cache.dirty → alookup s.cache.cached a = some o →
          alookup s'.cache.cached a = some { o with dirty := none }) ∧
        (∀ a, a ∉ s.cache.dirty →
          alookup s'.cache.cached a = alookup s.cache.cached a)) := by
  constructor
  · constructor
    · intro h hp
      rw [flushDirtyCache, if_pos hp] at h
      cases h
    · intro hp
      exact flushDirtyCache_eq_none hp
  · intro hp
    rw [flushDirtyCache, if_pos hp]
    refine ⟨_, rfl, rfl, ?_, ?_⟩
    · intro a o ha hb
      have h2 := @flushFold_alookup_mem T S _ _ ha s.cache.cached s.store
      rw [hb] at h2
      simpa using h2
    · intro a ha
      exact flushFold_alookup_not_mem ha _ _

/-- A busy cache: address 1 is checked out. -/
def sBusy : SysState Nat :=
  { cache := { cap := 2, cached := [], pinned := [(1, false)], dirty := [] },
    refs := [(1, oA)],
    store := st8 }

/-- A quiescent cache with a dirty resident entry at address 1. -/
def sOk : SysState Nat :=
  { cache := { cap := 2, cached := [(1, oAd)], pinned := [], dirty := [1] },
    refs := [],
    store := st8 }

/-- Witness for `C1_flush_dirty_barrier` on the two fixture caches. -/
theorem C1_flush_dirty_barrier_witness :
    flushDirtyCache natS sBusy = none ∧
    (∃ s', flushDirtyCache natS sOk = some s' ∧ s'.cache.dirty = [] ∧
      (∀ a o, a ∈ sOk.cache.dirty → alookup sOk.cache.cached a = some o →
        alookup s'.cache.cached a = some { o with dirty := none }) ∧
      (∀ a, a ∉ sOk.cache.dirty →
        alookup s'.cache.cached a = alookup sOk.cache.cached a)) :=
  ⟨(C1_flush_dirty_barrier natS sBusy).1.mpr (by decide),
    (C1_flush_dirty_barrier natS sOk).2 rfl⟩

/-- **C4, counterexample.**  The claim says invalidation dominates a
subsequent checkout marking; in the source `put` does an unconditional
`pinned.insert(ptr, false)`: after `put A; pop A` the flag for address 1 is
`true`, and a second `put A` resets it to `false`. -/
theorem C4_counterexample :
    alookup (exec natS 0 (initState 2 st8) [Op.put oA, Op.pop 1]).cache.pinned 1
        = some true ∧
    alookup (exec natS 0 (initState 2 st8) [Op.put oA, Op.pop 1, Op.put oA]).cache.pinned 1
        = some false := by
  decide

/-- **C4, amended.**  A checkout records the discard flag as `false`
unconditionally: `put` inserts `false` (overwriting an invalidation's
`true`), and `get` on a resident entry sets the flag to `false` whether or
not an entry was present (`and_modify(|p| *p = false).or_insert(false)`). -/
theorem C4_checkout_flag {T : Type} (s : SysState T) (a : Nat) (o : Obj T) :
    alookup (putOp s o).cache.pinned o.asAddr = some false ∧
    (∀ r, alookup s.cache.cached a = some r →
      alookup (getOp s a).cache.pinned a = some false) := by
  constructor
  · simp only [putOp]
    exact alookup_ainsert_self _ _ _
  · intro r hr
    simp only [getOp, hr]
    exact alookup_ainsert_self _ _ _

/-- A cache state whose address 1 carries an invalidation flag and whose
address 2 is resident. -/
def sPinTrue : SysState Nat :=
  { cache := { cap := 2, cached := [(2, oB)], pinned := [(1, true)], dirty := [] },
    refs := [],
    store := st8 }

/-- Witness for `C4_checkout_flag`: `put` at the invalidated address 1 and
`get` at the resident address 2 both record `false`. -/
theorem C4_checkout_flag_witness :
    alookup (putOp sPinTrue oA).cache.pinned 1 = some false ∧
    alookup (getOp sPinTrue 2).cache.pinned 2 = some false :=
  ⟨(C4_checkout_flag sPinTrue 2 oA).1, (C4_checkout_flag sPinTrue 2 oA).2 oB rfl⟩

/-- **C3, counterexample.**  Over *arbitrary* operation sequences the claim
fails: two consecutive `put`s of the same address hand out two live
references that both hold address 1 as checked out. -/
theorem C3_counterexample :
    (keys (exec natS 0 (initState 2 st8) [Op.put oA, Op.put oA]).refs).count 1 = 2 ∧
    alookup (exec natS 0 (initState 2 st8) [Op.put oA, Op.put oA]).cache.pinned 1
        = some false := by
  decide

/-- **C3, amended.**  Under the layer's put discipline (`put` only for an
address that is neither checked out nor resident — the insertion path after a
`get` miss), every reachable state has at most one live reference per
address. -/
theorem C3_single_checkout {T : Type} (S : StorableImpl T) (e : T) (s : SysState T)
    (h : DReach S e s) : ∀ a, (keys s.refs).count a ≤ 1 :=
  (DReach_Inv h).ref_count

/-- Witness for `C3_single_checkout` after a disciplined checkout. -/
theorem C3_single_checkout_witness :
    (keys (exec natS 0 (initState 2 st8) [Op.put oA]).refs).count 1 ≤ 1 :=
  C3_single_checkout natS 0 (exec natS 0 (initState 2 st8) [Op.put oA])
    ⟨2, st8, [Op.put oA], by decide, by decide, rfl⟩ 1

/-- **C9, counterexample.**  Both halves of the claimed invariant fail on
the code.  With capacity 1: `put A; write A; release A` makes address 1
resident and dirty; an (undisciplined) second `put A` then makes 1
simultaneously LRU-resident and checked out.  Continuing with
`release A; put B; release B` evicts 1 from the LRU while the dirty set
still contains it, so 1 sits in the dirty set while neither resident nor
checked out. -/
theorem C9_counterexample :
    (1 ∈ keys (exec natS 0 (initState 1 st8)
        [Op.put oA, Op.write 1 (fun _ => 3), Op.release 1, Op.put oA]).cache.cached ∧
     1 ∈ keys (exec natS 0 (initState 1 st8)
        [Op.put oA, Op.write 1 (fun _ => 3), Op.release 1, Op.put oA]).cache.pinned) ∧
    (1 ∈ (exec natS 0 (initState 1 st8)
        [Op.put oA, Op.write 1 (fun _ => 3), Op.release 1, Op.put oA, Op.release 1,
          Op.put oB, Op.release 2]).cache.dirty ∧
     1 ∉ keys (exec natS 0 (initState 1 st8)
        [Op.put oA, Op.write 1 (fun _ => 3), Op.release 1, Op.put oA, Op.release 1,
          Op.put oB, Op.release 2]).cache.cached ∧
     1 ∉ keys (exec natS 0 (initState 1 st8)
        [Op.put oA, Op.write 1 (fun _ => 3), Op.release 1, Op.put oA, Op.release 1,
          Op.put oB, Op.release 2]).cache.pinned) := by
  decide

/-- **C9, amended.**  Under the put discipline, no address is ever both
LRU-resident and checked out; the dirty-set containment half of the claim is
dropped (an LRU eviction legitimately leaves the evicted address in the
dirty set, and the barrier flush skips such stale dirty addresses). -/
theorem C9_state_exclusive {T : Type} (S : StorableImpl T) (e : T) (s : SysState T)
    (h : DReach S e s) :
    ∀ a, ¬(a ∈ keys s.cache.cached ∧ a ∈ keys s.cache.pinned) := by
  rintro a ⟨hc, hp⟩
  exact (DReach_Inv h).pin_cached a hp hc

/-- Witness for `C9_state_exclusive` after a disciplined checkout. -/
theorem C9_state_exclusive_witness :
    ¬(1 ∈ keys (exec natS 0 (initState 2 st8) [Op.put oA]).cache.cached ∧
      1 ∈ keys (exec natS 0 (initState 2 st8) [Op.put oA]).cache.pinned) :=
  C9_state_exclusive natS 0 (exec natS 0 (initState 2 st8) [Op.put oA])
    ⟨2, st8, [Op.put oA], by decide, by decide, rfl⟩ 1

/-- **C2.**  Discard dominance: if `pop(addr)` runs while `addr` is checked
out, then — across any further disciplined operations that do not consume
that reference — the eventual release of the reference writes no bytes to
the store and does not reinsert `addr` into the LRU. -/
theorem C2_discard_dominance {T : Type} (S : StorableImpl T) (e : T) (s : SysState T)
    (addr : Nat) (ops : List (Op T))
    (hD : DReach S e s) (href : addr ∈ keys s.refs)
    (hok : OkTrace S e (step S e s (Op.pop addr)) ops = true)
    (hav : ops.all (fun op => !consumesRef op addr) = true) :
    (releaseOp S (exec S e (step S e s (Op.pop addr)) ops) addr).store
        = (exec S e (step S e s (Op.pop addr)) ops).store ∧
    addr ∉ keys (releaseOp S (exec S e (step S e s (Op.pop addr)) ops) addr).cache.cached := by
  have hInv := DReach_Inv hD
  have hp : addr ∈ keys s.cache.pinned := hInv.ref_pinned addr href
  have hc : addr ∉ keys s.cache.cached := hInv.pin_cached addr hp
  have h0 : PopPersist addr (step S e s (Op.pop addr)) := by
    refine ⟨?_, ?_, ?_⟩
    · show alookup (popOp s addr).cache.pinned addr = some true
      simp only [popOp]
      exact alookup_setTrue_self hp
    · show addr ∈ keys (popOp s addr).refs
      simpa [popOp] using href
    · show addr ∉ keys (popOp s addr).cache.cached
      simp only [popOp, mem_keys_aremove]
      rintro ⟨h1, -⟩
      exact hc h1
  have h1 : PopPersist addr (exec S e (step S e s (Op.pop addr)) ops) :=
    PopPersist_exec h0 hok hav
  obtain ⟨hst, hcc, -⟩ := @release_of_popped T S _ _ h1
  exact ⟨hst, hcc⟩

/-- The disciplined base state for the C2 and C10 witnesses: a fresh
capacity-2 cache after checking out address 1 via `put`. -/
def s2base : SysState Nat := exec natS 0 (initState 2 st8) [Op.put oA]

/-- Witness for `C2_discard_dominance`: pop the checked-out address 1, then
release it immediately. -/
theorem C2_discard_dominance_witness :
    (releaseOp natS (exec natS 0 (step natS 0 s2base (Op.pop 1)) []) 1).store
        = (exec natS 0 (step natS 0 s2base (Op.pop 1)) []).store ∧
    1 ∉ keys (releaseOp natS (exec natS 0 (step natS 0 s2base (Op.pop 1)) []) 1).cache.cached :=
  C2_discard_dominance natS 0 s2base 1 []
    ⟨2, st8, [Op.put oA], by decide, by decide, rfl⟩ (by decide) (by decide) (by decide)

/-- **C10.**  Consuming a reference through `ObjRef::into_inner` skips the
release protocol: the checked-out (`pinned`) entry for its address survives,
and after any further disciplined operations it still survives, so every
subsequent `flush_dirty` on that cache returns "busy". -/
theorem C10_into_inner_leak {T : Type} (S : StorableImpl T) (e : T) (s : SysState T)
    (addr : Nat) (ops : List (Op T))
    (hD : DReach S e s) (href : addr ∈ keys s.refs)
    (hok : OkTrace S e (step S e s (Op.intoInner addr)) ops = true) :
    addr ∈ keys (exec S e (step S e s (Op.intoInner addr)) ops).cache.pinned ∧
    flushDirtyCache S (exec S e (step S e s (Op.intoInner addr)) ops) = none := by
  have hInv := DReach_Inv hD
  have hp : addr ∈ keys s.cache.pinned := hInv.ref_pinned addr href
  have hc : addr ∉ keys s.cache.cached := hInv.pin_cached addr hp
  have h0 : Leaked addr (step S e s (Op.intoInner addr)) := by
    show Leaked addr (intoInnerOp S e s addr)
    obtain ⟨o, refs', ht⟩ : ∃ o refs', refTake s.refs addr = some (o, refs') := by
      cases ht : refTake s.refs addr with
      | none => exact absurd (refTake_eq_none.mp ht) (not_not_intro href)
      | some pr =>
        obtain ⟨o, refs'⟩ := pr
        exact ⟨o, refs', rfl⟩
    have hcount : addr ∉ keys refs' := by
      have h1 := refTake_count_self ht
      have h2 := hInv.ref_count addr
      intro hm
      rw [← List.count_pos_iff] at hm
      omega
    refine ⟨?_, ?_, ?_⟩
    · simpa only [intoInnerOp, ht] using hp
    · simpa only [intoInnerOp, ht] using hcount
    · simpa only [intoInnerOp, ht] using hc
  have h1 : Leaked addr (exec S e (step S e s (Op.intoInner addr)) ops) :=
    Leaked_exec h0 hok
  exact ⟨h1.1, flushDirtyCache_eq_none (ne_nil_of_mem_keys h1.1)⟩

/-- Witness for `C10_into_inner_leak`: consume the reference for address 1,
then observe the barrier stays busy. -/
theorem C10_into_inner_leak_witness :
    1 ∈ keys (exec natS 0 (step natS 0 s2base (Op.intoInner 1)) []).cache.pinned ∧
    flushDirtyCache natS (exec natS 0 (step natS 0 s2base (Op.intoInner 1)) []) = none :=
  C10_into_inner_leak natS 0 s2base 1 []
    ⟨2, st8, [Op.put oA], by decide, by decide, rfl⟩ (by decide) (by decide)

end Firewood
